import Mathlib

/-!
Verification of the STM8 bootloader host-side driver (kicer/stm8loader).

This file gives a shallow embedding of the protocol logic of
`scripts/stm8loader.py` (frame codec, chunked memory reads/writes, the
boot1 handshake wait loops, the boot2 stage transfer, and the boot2
liveness probe) and of the near-duplicate ready-wait loop of
`scripts/stm8_bootloader_test.py`, and proves the specified properties
about these definitions.

Modelling conventions:
* a Python `bytes` value is a `List Nat` whose entries are below 256
  (stated as a hypothesis where a theorem needs it);
* serial I/O is abstracted by explicit arguments: the ready-wait loops
  take the list of chunks successive non-blocking reads return, and the
  command engine takes a `target` function mapping each sent
  (command, address, payload) request to the parsed response triple;
* a raised `STM8BootloaderError` is modelled as `Except.error` carrying
  a constructor named after the failure (one constructor per raise site,
  using the spec's error names).
-/

/-- Read memory command code (`CMD_READ = 0xF1`). -/
def CMD_READ : Nat := 0xF1

/-- Write memory command code (`CMD_WRITE = 0xF2`). -/
def CMD_WRITE : Nat := 0xF2

/-- Jump execution command code (`CMD_GO = 0xF3`). -/
def CMD_GO : Nat := 0xF3

/-- Execute machine code command code (`CMD_EXEC = 0xF4`). -/
def CMD_EXEC : Nat := 0xF4

/-- Frame header sent to the MCU (`CMD_HEADER = 0x5A`). -/
def CMD_HEADER : Nat := 0x5A

/-- MCU response frame header (`ACK_HEADER = 0xA5`). -/
def ACK_HEADER : Nat := 0xA5

/-- Handshake detection address (`HANDSHAKE_ADDR = 0x8000`). -/
def HANDSHAKE_ADDR : Nat := 0x8000

/-- Handshake data length (`HANDSHAKE_SIZE = 8`). -/
def HANDSHAKE_SIZE : Nat := 8

/-- Command frame buffer total size (`FRAME_SIZE = 70`). -/
def FRAME_SIZE : Nat := 70

/-- Maximum single data length (`MAX_DATA_SIZE = 64`). -/
def MAX_DATA_SIZE : Nat := 64

/-- The failure cases of the driver, one constructor per
`STM8BootloaderError`-raise site the embedded code can hit, named after
the spec's error taxonomy. -/
inductive ProtocolError where
  | PayloadTooLarge
  | FrameTooShort
  | BadHeader
  | ChecksumMismatch
  | LengthMismatch
  | NoResponse
  | ReadMismatch
  | ReadLengthMismatch
  | WriteMismatch
  | EmptyImage
  | InfoTooShort
deriving DecidableEq, Repr

/-- `STM8Bootloader.calculate_checksum`: XOR of all bytes, starting
from 0 (`checksum = 0; for byte in data: checksum ^= byte`). -/
def calculate_checksum (data : List Nat) : Nat :=
  data.foldl (fun checksum byte => checksum ^^^ byte) 0

/-- `STM8Bootloader.create_command_frame`: raises if the payload exceeds
`MAX_DATA_SIZE`, otherwise fills the 70-byte buffer with
header/cmd/addr-hi/addr-lo/len/payload, stores the XOR checksum of those
`5 + len(data)` bytes right after them, and returns the slice
`frame[:5+len(data)+1]` (the logical frame). -/
def create_command_frame (cmd addr : Nat) (data : List Nat) : Except ProtocolError (List Nat) :=
  if MAX_DATA_SIZE < data.length then
    .error .PayloadTooLarge
  else
    let checksum_data :=
      CMD_HEADER :: cmd :: ((addr >>> 8) % 256) :: (addr % 256) :: data.length :: data
    .ok (checksum_data ++ [calculate_checksum checksum_data])

/-- `STM8Bootloader.parse_response_frame`: checks, in this order, the
minimum length (6), the `ACK_HEADER` first byte, the XOR checksum of
`frame[:-1]` against `frame[-1]`, and the declared length byte
`frame[4]` against the supplied length; on success returns
`(frame[1], (frame[2] << 8) | frame[3], frame[5:5+frame[4]])`. -/
def parse_response_frame (frame : List Nat) : Except ProtocolError (Nat × Nat × List Nat) :=
  if frame.length < 6 then
    .error .FrameTooShort
  else if frame.getD 0 0 ≠ ACK_HEADER then
    .error .BadHeader
  else if frame.getLastD 0 ≠ calculate_checksum frame.dropLast then
    .error .ChecksumMismatch
  else
    let cmd := frame.getD 1 0
    let addr := ((frame.getD 2 0) <<< 8) ||| frame.getD 3 0
    let data_len := frame.getD 4 0
    if frame.length < 5 + data_len + 1 then
      .error .LengthMismatch
    else
      .ok (cmd, addr, (frame.drop 5).take data_len)

/-- For byte values, Python's `(hi << 8) | lo` is the big-endian value
`hi * 256 + lo`. -/
theorem shiftLeft_eight_or_eq (x y : Nat) (hy : y < 256) :
    (x <<< 8) ||| y = x * 256 + y := by
  apply Nat.eq_of_testBit_eq
  intro i
  rw [Nat.testBit_or, Nat.testBit_shiftLeft]
  rcases Nat.lt_or_ge i 8 with h8 | h8
  · have hx : (decide (8 ≤ i) && x.testBit (i - 8)) = false := by
      simp [Nat.not_le.mpr h8]
    have hmod : (x * 256 + y) % 2 ^ 8 = y := by
      have h256 : (2 : Nat) ^ 8 = 256 := by norm_num
      rw [h256, Nat.add_comm, Nat.add_mul_mod_self_right, Nat.mod_eq_of_lt hy]
    calc (decide (8 ≤ i) && x.testBit (i - 8) || y.testBit i)
        = y.testBit i := by rw [hx, Bool.false_or]
      _ = ((x * 256 + y) % 2 ^ 8).testBit i := by rw [hmod]
      _ = (decide (i < 8) && (x * 256 + y).testBit i) := Nat.testBit_mod_two_pow _ _ _
      _ = (x * 256 + y).testBit i := by simp [h8]
  · have hy2 : y.testBit i = false := by
      apply Nat.testBit_lt_two_pow
      calc y < 256 := hy
        _ = 2 ^ 8 := by norm_num
        _ ≤ 2 ^ i := Nat.pow_le_pow_right (by norm_num) h8
    have hdiv : (x * 256 + y) / 2 ^ i = x / 2 ^ (i - 8) := by
      have hi : (2 : Nat) ^ i = 2 ^ 8 * 2 ^ (i - 8) := by
        rw [← pow_add]
        congr 1
        omega
      rw [hi, ← Nat.div_div_eq_div_mul]
      congr 1
      have hx256 : x * 256 + y = 2 ^ 8 * x + y := by ring
      rw [hx256, Nat.mul_add_div (by norm_num), Nat.div_eq_of_lt (by norm_num [hy]),
        Nat.add_zero]
    have hbit : (x * 256 + y).testBit i = x.testBit (i - 8) := by
      rw [Nat.testBit_to_div_mod, hdiv, ← Nat.testBit_to_div_mod]
    rw [hy2, Bool.or_false, hbit]
    simp [h8]

/-- Every in-range `getD` of a byte buffer is a byte. -/
theorem getD_lt_256 {frame : List Nat} (hb : ∀ b ∈ frame, b < 256)
    {n : Nat} (hn : n < frame.length) : frame.getD n 0 < 256 := by
  have : frame.getD n 0 = frame[n] := by
    simp [List.getD_eq_getElem?_getD, List.getElem?_eq_getElem hn]
  rw [this]
  exact hb _ (List.getElem_mem hn)

/-- C1: for `len(payload) ≤ 64`, `create_command_frame` returns exactly
`[0x5A][cmd][addr_hi][addr_lo][len][payload][checksum]`, a frame of
total length `5 + len(payload) + 1` whose final byte is the XOR of all
preceding bytes (the unused trailing bytes of the 70-byte buffer are not
included); for `len(payload) > 64` it fails with `PayloadTooLarge`. -/
theorem create_command_frame_spec (cmd addr : Nat) (data : List Nat) :
    (data.length ≤ MAX_DATA_SIZE →
      create_command_frame cmd addr data =
        .ok ((CMD_HEADER :: cmd :: ((addr >>> 8) % 256) :: (addr % 256) :: data.length :: data)
          ++ [calculate_checksum
              (CMD_HEADER :: cmd :: ((addr >>> 8) % 256) :: (addr % 256) :: data.length :: data)])
      ∧ ∀ frame, create_command_frame cmd addr data = .ok frame →
          frame.length = 5 + data.length + 1 ∧
          frame.getLastD 0 = calculate_checksum frame.dropLast) ∧
    (MAX_DATA_SIZE < data.length →
      create_command_frame cmd addr data = .error .PayloadTooLarge) := by
  constructor
  · intro h
    have hnot : ¬ MAX_DATA_SIZE < data.length := Nat.not_lt.mpr h
    constructor
    · simp [create_command_frame, hnot]
    · intro frame hf
      simp only [create_command_frame, if_neg hnot, Except.ok.injEq] at hf
      subst hf
      refine ⟨by simp; omega, ?_⟩
      rw [List.getLastD_concat, List.dropLast_concat]
  · intro h
    simp [create_command_frame, h]

/-- C1 witness: a concrete two-byte write frame and a concrete oversized
payload. -/
theorem create_command_frame_spec_witness :
    create_command_frame CMD_WRITE 0x8000 [0x42, 0x43] =
      .ok [0x5A, 0xF2, 0x80, 0x00, 0x02, 0x42, 0x43, 0x2B] ∧
    create_command_frame CMD_WRITE 0x8000 (List.replicate 65 0) = .error .PayloadTooLarge := by
  constructor
  · exact (((create_command_frame_spec CMD_WRITE 0x8000 [0x42, 0x43]).1 (by decide)).1).trans
      (by rfl)
  · exact (create_command_frame_spec CMD_WRITE 0x8000 (List.replicate 65 0)).2 (by decide)

/-- C2: `parse_response_frame` is a pure function of the byte buffer and
fails, in this order of precedence, with `FrameTooShort` (fewer than 6
bytes), `BadHeader` (first byte not `ACK_HEADER`), `ChecksumMismatch`
(XOR of all bytes but the last differs from the last byte), and
`LengthMismatch` (buffer shorter than `5 + declared_length + 1`);
otherwise it returns the echoed command byte, the 16-bit big-endian
address, and the declared-length payload slice. -/
theorem parse_response_frame_spec (frame : List Nat) (hb : ∀ b ∈ frame, b < 256) :
    (frame.length < 6 → parse_response_frame frame = .error .FrameTooShort) ∧
    (6 ≤ frame.length → frame.getD 0 0 ≠ ACK_HEADER →
      parse_response_frame frame = .error .BadHeader) ∧
    (6 ≤ frame.length → frame.getD 0 0 = ACK_HEADER →
      frame.getLastD 0 ≠ calculate_checksum frame.dropLast →
      parse_response_frame frame = .error .ChecksumMismatch) ∧
    (6 ≤ frame.length → frame.getD 0 0 = ACK_HEADER →
      frame.getLastD 0 = calculate_checksum frame.dropLast →
      frame.length < 5 + frame.getD 4 0 + 1 →
      parse_response_frame frame = .error .LengthMismatch) ∧
    (6 ≤ frame.length → frame.getD 0 0 = ACK_HEADER →
      frame.getLastD 0 = calculate_checksum frame.dropLast →
      5 + frame.getD 4 0 + 1 ≤ frame.length →
      parse_response_frame frame =
        .ok (frame.getD 1 0, frame.getD 2 0 * 256 + frame.getD 3 0,
          (frame.drop 5).take (frame.getD 4 0))) := by
  refine ⟨?_, ?_, ?_, ?_, ?_⟩
  · intro h
    unfold parse_response_frame
    rw [if_pos h]
  · intro h hne
    unfold parse_response_frame
    rw [if_neg (Nat.not_lt.mpr h), if_pos hne]
  · intro h h0 hcs
    unfold parse_response_frame
    rw [if_neg (Nat.not_lt.mpr h), if_neg (not_not_intro h0), if_pos hcs]
  · intro h h0 hcs hlen
    unfold parse_response_frame
    rw [if_neg (Nat.not_lt.mpr h), if_neg (not_not_intro h0), if_neg (not_not_intro hcs),
      if_pos hlen]
  · intro h h0 hcs hlen
    have h3 : frame.getD 3 0 < 256 := getD_lt_256 hb (by omega)
    unfold parse_response_frame
    rw [if_neg (Nat.not_lt.mpr h), if_neg (not_not_intro h0), if_neg (not_not_intro hcs),
      if_neg (Nat.not_lt.mpr hlen), shiftLeft_eight_or_eq _ _ h3]

/-- C2 witness: a concrete well-formed response frame parses to its
command, big-endian address, and payload. -/
theorem parse_response_frame_spec_witness :
    parse_response_frame [0xA5, 0xF1, 0x80, 0x00, 0x01, 0x42, 0x97] =
      .ok (0xF1, 0x8000, [0x42]) := by
  have h := (parse_response_frame_spec [0xA5, 0xF1, 0x80, 0x00, 0x01, 0x42, 0x97]
    (by decide)).2.2.2.2 (by decide) (by decide) (by decide) (by decide)
  exact h.trans (by rfl)

/-- The spec's cross-codec fixture: turn a command frame into a response
frame by overriding the header byte with `ACK_HEADER` and recomputing
the final checksum byte over the new body. -/
def to_response_frame (frame : List Nat) : List Nat :=
  let body := (ACK_HEADER :: frame.tail).dropLast
  body ++ [calculate_checksum body]

/-- A well-formed response frame (correct header, declared length byte,
and checksum, with a byte-valued low address byte) parses to its
command, big-endian address, and payload. -/
theorem parse_response_frame_well_formed (cmd hi lo : Nat) (data : List Nat) (hlo : lo < 256) :
    parse_response_frame
      ((ACK_HEADER :: cmd :: hi :: lo :: data.length :: data) ++
        [calculate_checksum (ACK_HEADER :: cmd :: hi :: lo :: data.length :: data)]) =
      .ok (cmd, hi * 256 + lo, data) := by
  set body : List Nat := ACK_HEADER :: cmd :: hi :: lo :: data.length :: data with hbody
  set cs : Nat := calculate_checksum body with hcseq
  have hlen : (body ++ [cs]).length = data.length + 6 := by
    rw [hbody]
    simp
  have h1 : ¬((body ++ [cs]).length < 6) := by
    rw [hlen]
    omega
  have h2 : (body ++ [cs]).getD 0 0 = ACK_HEADER := by
    rw [hbody]
    simp
  have h3 : (body ++ [cs]).getLastD 0 = calculate_checksum ((body ++ [cs]).dropLast) := by
    rw [List.getLastD_concat, List.dropLast_concat, hcseq]
  have h4 : (body ++ [cs]).getD 4 0 = data.length := by
    rw [hbody]
    simp
  have h5 : ¬((body ++ [cs]).length < 5 + (body ++ [cs]).getD 4 0 + 1) := by
    rw [hlen, h4]
    omega
  unfold parse_response_frame
  rw [if_neg h1, if_neg (not_not_intro h2), if_neg (not_not_intro h3), if_neg h5]
  have hdrop : ((body ++ [cs]).drop 5).take ((body ++ [cs]).getD 4 0) = data := by
    rw [h4, hbody]
    simp [List.take_left']
  rw [hdrop]
  have hg1 : (body ++ [cs]).getD 1 0 = cmd := by
    rw [hbody]
    simp
  have hg2 : (body ++ [cs]).getD 2 0 = hi := by
    rw [hbody]
    simp
  have hg3 : (body ++ [cs]).getD 3 0 = lo := by
    rw [hbody]
    simp
  rw [hg1, hg2, hg3, shiftLeft_eight_or_eq _ _ hlo]

/-- Overriding the header of a non-empty framed buffer keeps the body
and replaces the trailing checksum with one computed over the new body. -/
theorem to_response_frame_cons (h : Nat) (rest : List Nat) (cs : Nat) :
    to_response_frame ((h :: rest) ++ [cs]) =
      (ACK_HEADER :: rest) ++ [calculate_checksum (ACK_HEADER :: rest)] := by
  unfold to_response_frame
  have h1 : ((h :: rest) ++ [cs]).tail = rest ++ [cs] := by
    simp
  have h2 : ACK_HEADER :: (rest ++ [cs]) = (ACK_HEADER :: rest) ++ [cs] := by
    simp
  rw [h1, h2, List.dropLast_concat]

/-- C3: for every command code, 16-bit address and payload of at most 64
bytes, encoding a command frame, overriding its header byte `0x5A` with
the response header `0xA5` and recomputing the final checksum byte, and
then decoding, returns exactly the original command, address and
payload. -/
theorem codec_round_trip (cmd addr : Nat) (data : List Nat)
    (hlen : data.length ≤ MAX_DATA_SIZE) (haddr : addr < 65536) :
    ∃ frame, create_command_frame cmd addr data = .ok frame ∧
      parse_response_frame (to_response_frame frame) = .ok (cmd, addr, data) := by
  have hnot : ¬ MAX_DATA_SIZE < data.length := Nat.not_lt.mpr hlen
  refine ⟨(CMD_HEADER :: cmd :: ((addr >>> 8) % 256) :: (addr % 256) :: data.length :: data) ++
      [calculate_checksum
        (CMD_HEADER :: cmd :: ((addr >>> 8) % 256) :: (addr % 256) :: data.length :: data)],
    by simp [create_command_frame, hnot], ?_⟩
  rw [to_response_frame_cons]
  have harith : (addr >>> 8) % 256 * 256 + addr % 256 = addr := by
    have hdiv : addr >>> 8 = addr / 256 := by
      rw [Nat.shiftRight_eq_div_pow]
    rw [hdiv]
    omega
  exact (parse_response_frame_well_formed cmd ((addr >>> 8) % 256) (addr % 256) data
    (Nat.mod_lt _ (by norm_num))).trans (by rw [harith])

/-- C3 witness: round trip of a concrete read frame. -/
theorem codec_round_trip_witness :
    ∃ frame, create_command_frame 0xF1 0x1234 [0xAB] = .ok frame ∧
      parse_response_frame (to_response_frame frame) = .ok (0xF1, 0x1234, [0xAB]) :=
  codec_round_trip 0xF1 0x1234 [0xAB] (by decide) (by decide)

/-- The chunking plan of `STM8Bootloader.read_memory`: the sequence of
(request address, requested chunk length) pairs its loop produces
(`chunk_size = min(remaining, MAX_DATA_SIZE)`, addresses advancing by
the chunk size). -/
def read_chunks (addr size : Nat) : List (Nat × Nat) :=
  if size = 0 then []
  else
    let chunk_size := min size MAX_DATA_SIZE
    (addr, chunk_size) :: read_chunks (addr + chunk_size) (size - chunk_size)
termination_by size
decreasing_by
  simp only [MAX_DATA_SIZE]
  omega

/-- `STM8Bootloader.read_memory`, with the serial exchange abstracted: a
`target` function maps each sent (command, address, payload) request to
the parsed response triple `(cmd, resp_addr, data)`.  Returns the list
of requests actually issued (address, requested chunk length) together
with the result; a chunk whose echoed command/address mismatch raises
`ReadMismatch`, a chunk whose payload length differs from the request
raises `ReadLengthMismatch`, and either stops the loop. -/
def read_memory_run (target : Nat → Nat → List Nat → Nat × Nat × List Nat)
    (addr size : Nat) : List (Nat × Nat) × Except ProtocolError (List Nat) :=
  if size = 0 then ([], .ok [])
  else
    let chunk_size := min size MAX_DATA_SIZE
    let resp := target CMD_READ addr [chunk_size]
    if resp.1 ≠ CMD_READ ∨ resp.2.1 ≠ addr then
      ([(addr, chunk_size)], .error .ReadMismatch)
    else if resp.2.2.length ≠ chunk_size then
      ([(addr, chunk_size)], .error .ReadLengthMismatch)
    else
      let rest := read_memory_run target (addr + chunk_size) (size - chunk_size)
      ((addr, chunk_size) :: rest.1,
        match rest.2 with
        | .ok tail => .ok (resp.2.2 ++ tail)
        | .error e => .error e)
termination_by size
decreasing_by
  simp only [MAX_DATA_SIZE]
  omega

/-- The chunking plan of `STM8Bootloader.write_memory`: (request
address, chunk payload) pairs, chunks of at most `MAX_DATA_SIZE` taken
in order from the data. -/
def write_chunks (addr : Nat) (data : List Nat) : List (Nat × List Nat) :=
  if data.length = 0 then []
  else
    let chunk_size := min data.length MAX_DATA_SIZE
    (addr, data.take chunk_size) :: write_chunks (addr + chunk_size) (data.drop chunk_size)
termination_by data.length
decreasing_by
  simp only [List.length_drop, MAX_DATA_SIZE]
  omega

/-- `STM8Bootloader.write_memory` with the serial exchange abstracted as
in `read_memory_run`: returns the issued (address, chunk) requests and
the result; an echoed command/address mismatch raises `WriteMismatch`
and stops the loop (the payload of a write response is not checked). -/
def write_memory_run (target : Nat → Nat → List Nat → Nat × Nat × List Nat)
    (addr : Nat) (data : List Nat) : List (Nat × List Nat) × Except ProtocolError Bool :=
  if data.length = 0 then ([], .ok true)
  else
    let chunk_size := min data.length MAX_DATA_SIZE
    let chunk_data := data.take chunk_size
    let resp := target CMD_WRITE addr chunk_data
    if resp.1 ≠ CMD_WRITE ∨ resp.2.1 ≠ addr then
      ([(addr, chunk_data)], .error .WriteMismatch)
    else
      let rest := write_memory_run target (addr + chunk_size) (data.drop chunk_size)
      ((addr, chunk_data) :: rest.1, rest.2)
termination_by data.length
decreasing_by
  simp only [List.length_drop, MAX_DATA_SIZE]
  omega

/-- A target's response to the read request `p = (address, length)` is
compliant when it echoes `CMD_READ` and the address and carries a
payload of the requested length. -/
def compliesRead (target : Nat → Nat → List Nat → Nat × Nat × List Nat) (p : Nat × Nat) : Prop :=
  (target CMD_READ p.1 [p.2]).1 = CMD_READ ∧
  (target CMD_READ p.1 [p.2]).2.1 = p.1 ∧
  (target CMD_READ p.1 [p.2]).2.2.length = p.2

/-- A target's response to the write request `p = (address, chunk)` is
compliant when it echoes `CMD_WRITE` and the address. -/
def compliesWrite (target : Nat → Nat → List Nat → Nat × Nat × List Nat)
    (p : Nat × List Nat) : Prop :=
  (target CMD_WRITE p.1 p.2).1 = CMD_WRITE ∧ (target CMD_WRITE p.1 p.2).2.1 = p.1

/-- C4: against a target that answers every read chunk compliantly,
`read_memory` issues exactly the requests of the chunking plan
(chunks of at most 64 bytes, each non-empty, at successively advancing
addresses) and returns the concatenation of the returned payloads in
order; in particular a read of 200 bytes issues exactly the 4 requests
`(addr, 64), (addr+64, 64), (addr+128, 64), (addr+192, 8)`. -/
theorem read_memory_chunking (target : Nat → Nat → List Nat → Nat × Nat × List Nat)
    (hT : ∀ a c, compliesRead target (a, c)) :
    (∀ addr size, (read_memory_run target addr size).1 = read_chunks addr size ∧
      (read_memory_run target addr size).2 =
        .ok (((read_chunks addr size).map fun p => (target CMD_READ p.1 [p.2]).2.2).flatten)) ∧
    (∀ addr size, ∀ p ∈ read_chunks addr size, 0 < p.2 ∧ p.2 ≤ MAX_DATA_SIZE) ∧
    (∀ addr, read_chunks addr 200 =
      [(addr, 64), (addr + 64, 64), (addr + 128, 64), (addr + 192, 8)]) := by
  refine ⟨?_, ?_, ?_⟩
  · intro addr size
    induction size using Nat.strong_induction_on generalizing addr with
    | _ size ih =>
      by_cases h0 : size = 0
      · subst h0
        rw [read_memory_run, read_chunks]
        simp
      · obtain ⟨hc, ha, hl⟩ := hT addr (min size MAX_DATA_SIZE)
        have hrec := ih (size - min size MAX_DATA_SIZE)
          (by simp only [MAX_DATA_SIZE]; omega) (addr + min size MAX_DATA_SIZE)
        rw [read_memory_run, read_chunks]
        simp only [if_neg h0]
        constructor
        · simp [hc, ha, hl, hrec.1]
        · simp [hc, ha, hl, hrec.1, hrec.2]
  · intro addr size
    induction size using Nat.strong_induction_on generalizing addr with
    | _ size ih =>
      intro p hp
      by_cases h0 : size = 0
      · subst h0
        rw [read_chunks] at hp
        simp at hp
      · rw [read_chunks] at hp
        simp only [if_neg h0, List.mem_cons] at hp
        rcases hp with rfl | hp
        · refine ⟨?_, ?_⟩ <;> (simp only [MAX_DATA_SIZE]; omega)
        · exact ih (size - min size MAX_DATA_SIZE)
            (by simp only [MAX_DATA_SIZE]; omega) (addr + min size MAX_DATA_SIZE) p hp
  · intro addr
    simp [read_chunks, MAX_DATA_SIZE]

/-- A demo target that echoes every request and answers a read with a
zero-filled payload of the requested length. -/
def demo_read_target (cmd addr : Nat) (data : List Nat) : Nat × Nat × List Nat :=
  (cmd, addr, List.replicate (data.getD 0 0) 0)

/-- C4 witness: the concrete 200-byte read at `0x8000` issues exactly
the four planned requests. -/
theorem read_memory_chunking_witness :
    (read_memory_run demo_read_target 0x8000 200).1 =
      [(0x8000, 64), (0x8000 + 64, 64), (0x8000 + 128, 64), (0x8000 + 192, 8)] := by
  have h := read_memory_chunking demo_read_target
    (fun a c => ⟨rfl, rfl, by simp [demo_read_target]⟩)
  rw [(h.1 0x8000 200).1]
  exact h.2.2 0x8000

/-- C5: in a chunked read or write, if the response to some chunk has a
mismatched echoed command/address (or, for reads, a payload length
different from the requested chunk length) while all earlier chunks were
answered compliantly, the whole operation returns an error (no partial
result) and the issued requests stop at the failing chunk: they are
exactly the first `k + 1` entries of the chunking plan. -/
theorem chunk_mismatch_aborts :
    (∀ (target : Nat → Nat → List Nat → Nat × Nat × List Nat) (addr size k : Nat),
      k < (read_chunks addr size).length →
      (∀ j, j < k → compliesRead target ((read_chunks addr size).getD j (0, 0))) →
      ¬ compliesRead target ((read_chunks addr size).getD k (0, 0)) →
      ∃ e, (read_memory_run target addr size).2 = .error e ∧
        (read_memory_run target addr size).1 = (read_chunks addr size).take (k + 1)) ∧
    (∀ (target : Nat → Nat → List Nat → Nat × Nat × List Nat) (addr : Nat) (data : List Nat)
      (k : Nat),
      k < (write_chunks addr data).length →
      (∀ j, j < k → compliesWrite target ((write_chunks addr data).getD j (0, []))) →
      ¬ compliesWrite target ((write_chunks addr data).getD k (0, [])) →
      (write_memory_run target addr data).2 = .error .WriteMismatch ∧
        (write_memory_run target addr data).1 = (write_chunks addr data).take (k + 1)) := by
  constructor
  · intro target addr size k
    induction k generalizing addr size with
    | zero =>
      intro hk hprev hfail
      by_cases h0 : size = 0
      · exfalso
        rw [read_chunks] at hk
        simp [h0] at hk
      · rw [read_chunks] at hfail
        simp only [if_neg h0, List.getD_cons_zero, compliesRead] at hfail
        by_cases hAB : (target CMD_READ addr [min size MAX_DATA_SIZE]).1 ≠ CMD_READ ∨
            (target CMD_READ addr [min size MAX_DATA_SIZE]).2.1 ≠ addr
        · refine ⟨.ReadMismatch, ?_, ?_⟩
          · rw [read_memory_run]
            simp [h0, hAB]
          · rw [read_memory_run, read_chunks]
            simp [h0, hAB]
        · rcases not_or.mp hAB with ⟨hA, hB⟩
          rw [not_not] at hA hB
          have hC : (target CMD_READ addr [min size MAX_DATA_SIZE]).2.2.length ≠
              min size MAX_DATA_SIZE := by
            intro hC
            exact hfail ⟨hA, hB, hC⟩
          refine ⟨.ReadLengthMismatch, ?_, ?_⟩
          · rw [read_memory_run]
            simp [h0, hA, hB, hC]
          · rw [read_memory_run, read_chunks]
            simp [h0, hA, hB, hC]
    | succ k ih =>
      intro hk hprev hfail
      by_cases h0 : size = 0
      · exfalso
        rw [read_chunks] at hk
        simp [h0] at hk
      · have hcomp0 : (target CMD_READ addr [min size MAX_DATA_SIZE]).1 = CMD_READ ∧
            (target CMD_READ addr [min size MAX_DATA_SIZE]).2.1 = addr ∧
            (target CMD_READ addr [min size MAX_DATA_SIZE]).2.2.length =
              min size MAX_DATA_SIZE := by
          have hp := hprev 0 (Nat.succ_pos k)
          rw [read_chunks] at hp
          simp only [if_neg h0, List.getD_cons_zero, compliesRead] at hp
          exact hp
        obtain ⟨hA, hB, hC⟩ := hcomp0
        have hk2 : k < (read_chunks (addr + min size MAX_DATA_SIZE)
            (size - min size MAX_DATA_SIZE)).length := by
          rw [read_chunks] at hk
          simpa [h0] using hk
        have hprev2 : ∀ j, j < k → compliesRead target
            ((read_chunks (addr + min size MAX_DATA_SIZE)
              (size - min size MAX_DATA_SIZE)).getD j (0, 0)) := by
          intro j hj
          have hp := hprev (j + 1) (by omega)
          rw [read_chunks] at hp
          simpa [h0] using hp
        have hfail2 : ¬ compliesRead target
            ((read_chunks (addr + min size MAX_DATA_SIZE)
              (size - min size MAX_DATA_SIZE)).getD k (0, 0)) := by
          rw [read_chunks] at hfail
          simpa [h0] using hfail
        obtain ⟨e, he, ht⟩ := ih (addr + min size MAX_DATA_SIZE)
          (size - min size MAX_DATA_SIZE) hk2 hprev2 hfail2
        refine ⟨e, ?_, ?_⟩
        · rw [read_memory_run]
          simp [h0, hA, hB, hC, he]
        · rw [read_memory_run, read_chunks]
          simp [h0, hA, hB, hC, ht]
  · intro target addr data k
    induction k generalizing addr data with
    | zero =>
      intro hk hprev hfail
      by_cases h0 : data.length = 0
      · exfalso
        rw [write_chunks] at hk
        simp [h0] at hk
      · rw [write_chunks] at hfail
        simp only [if_neg h0, List.getD_cons_zero, compliesWrite] at hfail
        have hAB : (target CMD_WRITE addr
              (data.take (min data.length MAX_DATA_SIZE))).1 ≠ CMD_WRITE ∨
            (target CMD_WRITE addr
              (data.take (min data.length MAX_DATA_SIZE))).2.1 ≠ addr := by
          by_contra hcon
          rcases not_or.mp hcon with ⟨hA, hB⟩
          rw [not_not] at hA hB
          exact hfail ⟨hA, hB⟩
        refine ⟨?_, ?_⟩
        · rw [write_memory_run]
          simp [h0, hAB]
        · rw [write_memory_run, write_chunks]
          simp [h0, hAB]
    | succ k ih =>
      intro hk hprev hfail
      by_cases h0 : data.length = 0
      · exfalso
        rw [write_chunks] at hk
        simp [h0] at hk
      · have hcomp0 : (target CMD_WRITE addr
              (data.take (min data.length MAX_DATA_SIZE))).1 = CMD_WRITE ∧
            (target CMD_WRITE addr
              (data.take (min data.length MAX_DATA_SIZE))).2.1 = addr := by
          have hp := hprev 0 (Nat.succ_pos k)
          rw [write_chunks] at hp
          simp only [if_neg h0, List.getD_cons_zero, compliesWrite] at hp
          exact hp
        obtain ⟨hA, hB⟩ := hcomp0
        have hk2 : k < (write_chunks (addr + min data.length MAX_DATA_SIZE)
            (data.drop (min data.length MAX_DATA_SIZE))).length := by
          rw [write_chunks] at hk
          simpa [h0] using hk
        have hprev2 : ∀ j, j < k → compliesWrite target
            ((write_chunks (addr + min data.length MAX_DATA_SIZE)
              (data.drop (min data.length MAX_DATA_SIZE))).getD j (0, [])) := by
          intro j hj
          have hp := hprev (j + 1) (by omega)
          rw [write_chunks] at hp
          simpa [h0] using hp
        have hfail2 : ¬ compliesWrite target
            ((write_chunks (addr + min data.length MAX_DATA_SIZE)
              (data.drop (min data.length MAX_DATA_SIZE))).getD k (0, [])) := by
          rw [write_chunks] at hfail
          simpa [h0] using hfail
        obtain ⟨he, ht⟩ := ih (addr + min data.length MAX_DATA_SIZE)
          (data.drop (min data.length MAX_DATA_SIZE)) hk2 hprev2 hfail2
        refine ⟨?_, ?_⟩
        · rw [write_memory_run]
          simp [h0, hA, hB, he]
        · rw [write_memory_run, write_chunks]
          simp [h0, hA, hB, ht]

/-- A demo target that echoes a wrong address for requests at address 64
and behaves compliantly elsewhere. -/
def demo_bad_target (cmd addr : Nat) (data : List Nat) : Nat × Nat × List Nat :=
  if addr = 64 then (cmd, addr + 1, List.replicate (data.getD 0 0) 0)
  else (cmd, addr, List.replicate (data.getD 0 0) 0)

/-- C5 witness: a 130-byte read and a 130-byte write against a target
whose second chunk response echoes the wrong address abort with an error
after exactly two issued requests. -/
theorem chunk_mismatch_aborts_witness :
    (∃ e, (read_memory_run demo_bad_target 0 130).2 = .error e ∧
      (read_memory_run demo_bad_target 0 130).1 = (read_chunks 0 130).take 2) ∧
    ((write_memory_run demo_bad_target 0 (List.replicate 130 7)).2 = .error .WriteMismatch ∧
      (write_memory_run demo_bad_target 0 (List.replicate 130 7)).1 =
        (write_chunks 0 (List.replicate 130 7)).take 2) := by
  constructor
  · refine chunk_mismatch_aborts.1 demo_bad_target 0 130 1 ?_ ?_ ?_
    · simp [read_chunks, MAX_DATA_SIZE]
    · intro j hj
      have hj0 : j = 0 := by omega
      subst hj0
      simp [read_chunks, MAX_DATA_SIZE, compliesRead, demo_bad_target]
    · simp [read_chunks, MAX_DATA_SIZE, compliesRead, demo_bad_target]
  · refine chunk_mismatch_aborts.2 demo_bad_target 0 (List.replicate 130 7) 1 ?_ ?_ ?_
    · simp [write_chunks, MAX_DATA_SIZE]
    · intro j hj
      have hj0 : j = 0 := by omega
      subst hj0
      simp [write_chunks, MAX_DATA_SIZE, compliesWrite, demo_bad_target]
    · simp [write_chunks, MAX_DATA_SIZE, compliesWrite, demo_bad_target]

/-- Result of one attempt of the windowed ready-wait. -/
inductive WaitOutcome where
  | sentBoot2
  | timeoutNoSignal
deriving DecidableEq, Repr

/-- The polling loop of
`STM8Bootloader.wait_for_boot1_signal_and_send_boot2` (the 250 ms
windowed ready-wait), abstracted over the sequence of chunks its
successive non-blocking reads return within the window.  Each iteration
appends the newly available data to the accumulated buffer (skipping
read and check when nothing is waiting) and then checks whether the
buffer's trailing two bytes are the marker `0x00 0x0D`
(`len(buffer) >= 2 and buffer[-2:] == b'\x00\x0d'`); on a match it
immediately sends the boot2 image (`sentBoot2`); exhausting the window
yields `timeoutNoSignal`.  Besides the outcome it returns the
accumulated buffer at the start of every later iteration, exposing the
loop's buffer growth. -/
def boot1_wait_run (buffer : List Nat) : List (List Nat) → WaitOutcome × List (List Nat)
  | [] => (.timeoutNoSignal, [])
  | chunk :: rest =>
    if chunk.isEmpty then
      let r := boot1_wait_run buffer rest
      (r.1, buffer :: r.2)
    else
      let b := buffer ++ chunk
      if 2 ≤ b.length ∧ b.drop (b.length - 2) = [0x00, 0x0D] then
        (.sentBoot2, [])
      else
        let r := boot1_wait_run b rest
        (r.1, b :: r.2)

/-- If the data received so far ends with the marker and at least one
byte still arrives, the windowed wait reaches `sentBoot2`. -/
theorem boot1_wait_run_detects (chunks : List (List Nat)) :
    ∀ buffer : List Nat,
      (∃ pre, buffer ++ chunks.flatten = pre ++ [0x00, 0x0D]) →
      chunks.flatten ≠ [] →
      (boot1_wait_run buffer chunks).1 = .sentBoot2 := by
  induction chunks with
  | nil =>
    intro buffer _ hne
    simp at hne
  | cons chunk rest ih =>
    intro buffer hsuf hne
    by_cases hc : chunk = []
    · subst hc
      have hgoal : (boot1_wait_run buffer ([] :: rest)).1 = (boot1_wait_run buffer rest).1 := by
        simp [boot1_wait_run]
      rw [hgoal]
      exact ih buffer (by simpa using hsuf) (by simpa using hne)
    · have hie : chunk.isEmpty = false := by
        rcases chunk with _ | ⟨c, cs⟩
        · exact absurd rfl hc
        · rfl
      by_cases hm : 2 ≤ buffer.length + chunk.length ∧
          (buffer ++ chunk).drop (buffer.length + chunk.length - 2) = [0x00, 0x0D]
      · simp [boot1_wait_run, hie, hm]
      · by_cases hre : rest.flatten = []
        · exfalso
          obtain ⟨pre, hpre⟩ := hsuf
          rw [List.flatten_cons, hre, List.append_nil] at hpre
          have hlen : buffer.length + chunk.length = pre.length + 2 := by
            have hcongr := congrArg List.length hpre
            simpa using hcongr
          apply hm
          constructor
          · omega
          · rw [hpre, hlen]
            have h2 : pre.length + 2 - 2 = pre.length := by omega
            rw [h2, List.drop_left]
        · have hgoal : (boot1_wait_run buffer (chunk :: rest)).1 =
              (boot1_wait_run (buffer ++ chunk) rest).1 := by
            simp [boot1_wait_run, hie, hm]
          rw [hgoal]
          refine ih (buffer ++ chunk) ?_ hre
          obtain ⟨pre, hpre⟩ := hsuf
          refine ⟨pre, ?_⟩
          rw [← hpre, List.flatten_cons, List.append_assoc]

/-- C6: for every incoming byte stream whose final two bytes are
`0x00 0x0D`, and for every way that stream is split across successive
non-blocking reads, the windowed ready-wait detects the marker as the
trailing two bytes of the data received so far and immediately proceeds
to send the boot2 image within the same attempt. -/
theorem boot1_windowed_wait_detects_marker (chunks : List (List Nat))
    (hstream : ∃ pre, chunks.flatten = pre ++ [0x00, 0x0D]) :
    (boot1_wait_run [] chunks).1 = .sentBoot2 := by
  obtain ⟨pre, hpre⟩ := hstream
  refine boot1_wait_run_detects chunks [] ⟨pre, by simpa using hpre⟩ ?_
  rw [hpre]
  exact List.append_ne_nil_of_right_ne_nil pre (by simp)

/-- C6 witness: the stream `0x41 0x42 0x00 0x0D` split into 1-byte,
2-byte, and 4-byte reads is detected in each case. -/
theorem boot1_windowed_wait_detects_marker_witness :
    (boot1_wait_run [] [[0x41], [0x42], [0x00], [0x0D]]).1 = .sentBoot2 ∧
    (boot1_wait_run [] [[0x41, 0x42], [0x00, 0x0D]]).1 = .sentBoot2 ∧
    (boot1_wait_run [] [[0x41, 0x42, 0x00, 0x0D]]).1 = .sentBoot2 :=
  ⟨boot1_windowed_wait_detects_marker _ ⟨[0x41, 0x42], by decide⟩,
   boot1_windowed_wait_detects_marker _ ⟨[0x41, 0x42], by decide⟩,
   boot1_windowed_wait_detects_marker _ ⟨[0x41, 0x42], by decide⟩⟩

/-- C7 counterexample: the windowed ready-wait of `stm8loader.py`
(`wait_for_boot1_signal_and_send_boot2`) never truncates its buffer:
after non-matching reads `[0x41]`, `[0x42]`, `[0x43]` the loop holds a
2-byte and then a 3-byte buffer at iteration starts, refuting "the
stored buffer holds at most one byte at the start of every loop
iteration". -/
theorem boot1_windowed_wait_buffer_unbounded :
    ¬ (∀ b ∈ (boot1_wait_run [] [[0x41], [0x42], [0x43]]).2, b.length ≤ 1) := by
  decide

/-- The polling loop of `STM8BootloaderTester.wait_for_mcu_ready` in
`stm8_bootloader_test.py`, abstracted over the chunks its reads return:
each iteration appends newly available data, returns success when the
buffer's trailing two bytes are `0x00 0x0D`, and otherwise retains only
the last received byte (`buffer = buffer[-1:]`) before the next read.
Besides the outcome it returns the buffer retained at the start of every
later iteration. -/
def wait_for_mcu_ready_run (buffer : List Nat) : List (List Nat) → Bool × List (List Nat)
  | [] => (false, [])
  | chunk :: rest =>
    if chunk.isEmpty then
      let r := wait_for_mcu_ready_run buffer rest
      (r.1, buffer :: r.2)
    else
      let b := buffer ++ chunk
      if b.drop (b.length - 2) = [0x00, 0x0D] then
        (true, [])
      else
        let b2 := b.drop (b.length - 1)
        let r := wait_for_mcu_ready_run b2 rest
        (r.1, b2 :: r.2)

/-- The last element of a non-empty list is its length-minus-one tail. -/
theorem drop_length_sub_one {l : List Nat} {x : Nat} (h : l.getLast? = some x) :
    l.drop (l.length - 1) = [x] := by
  induction l with
  | nil => simp at h
  | cons a t ih =>
    cases t with
    | nil =>
      simp at h
      subst h
      rfl
    | cons b t2 =>
      have h2 : (b :: t2).getLast? = some x := by
        rw [← h, List.getLast?_cons_cons]
      have h3 := ih h2
      simpa [List.drop_succ_cons] using h3

/-- C7 (amended): in the test script's ready-wait loop
(`wait_for_mcu_ready`), after each read whose accumulated data does not
end in the marker `0x00 0x0D` the engine retains only the last received
byte, so the stored buffer holds at most one byte at the start of every
loop iteration, while a marker straddling two reads is still detected;
the main loader's windowed loop instead accumulates all received bytes
(see the counterexample). -/
theorem mcu_ready_wait_bounded_buffer :
    (∀ (chunks : List (List Nat)) (buffer : List Nat), buffer.length ≤ 1 →
      ∀ b ∈ (wait_for_mcu_ready_run buffer chunks).2, b.length ≤ 1) ∧
    (∀ (buffer chunk1 : List Nat), chunk1.getLast? = some 0x00 →
      (wait_for_mcu_ready_run buffer [chunk1, [0x0D]]).1 = true) := by
  constructor
  · intro chunks
    induction chunks with
    | nil =>
      intro buffer hbuf b hb
      simp [wait_for_mcu_ready_run] at hb
    | cons chunk rest ih =>
      intro buffer hbuf b hb
      by_cases hc : chunk = []
      · subst hc
        simp [wait_for_mcu_ready_run] at hb
        rcases hb with rfl | hb
        · exact hbuf
        · exact ih buffer hbuf b hb
      · have hie : chunk.isEmpty = false := by
          rcases chunk with _ | ⟨c, cs⟩
          · exact absurd rfl hc
          · rfl
        by_cases hm : (buffer ++ chunk).drop (buffer.length + chunk.length - 2) = [0x00, 0x0D]
        · simp [wait_for_mcu_ready_run, hie, hm] at hb
        · simp [wait_for_mcu_ready_run, hie, hm] at hb
          have hlen : ((buffer ++ chunk).drop (buffer.length + chunk.length - 1)).length ≤ 1 := by
            simp only [List.length_drop, List.length_append]
            omega
          rcases hb with rfl | hb
          · exact hlen
          · exact ih _ hlen b hb
  · intro buffer chunk1 hlast
    have hne : chunk1 ≠ [] := by
      intro hcon
      rw [hcon] at hlast
      simp at hlast
    have hie : chunk1.isEmpty = false := by
      rcases chunk1 with _ | ⟨c, cs⟩
      · exact absurd rfl hne
      · rfl
    have hb : (buffer ++ chunk1).getLast? = some 0x00 := by
      rw [List.getLast?_append, hlast]
      rfl
    by_cases hm : (buffer ++ chunk1).drop (buffer.length + chunk1.length - 2) = [0x00, 0x0D]
    · simp [wait_for_mcu_ready_run, hie, hm]
    · have hlast1 : (buffer ++ chunk1).length - 1 = buffer.length + chunk1.length - 1 := by
        simp
      have hdrop : (buffer ++ chunk1).drop (buffer.length + chunk1.length - 1) = [0x00] := by
        rw [← hlast1]
        exact drop_length_sub_one hb
      simp [wait_for_mcu_ready_run, hie, hm, hdrop]

/-- C7 amended-claim witness: a concrete run keeping at most one byte
between reads, and a concrete marker split across two reads that is
still detected. -/
theorem mcu_ready_wait_bounded_buffer_witness :
    (∀ b ∈ (wait_for_mcu_ready_run [] [[0x41, 0x42], [0x00], [0x0D]]).2, b.length ≤ 1) ∧
    (wait_for_mcu_ready_run [] [[0x41, 0x00], [0x0D]]).1 = true :=
  ⟨mcu_ready_wait_bounded_buffer.1 [[0x41, 0x42], [0x00], [0x0D]] [] (by decide),
   mcu_ready_wait_bounded_buffer.2 [] [0x41, 0x00] (by decide)⟩

/-- One serial operation of the stage-transfer step, for tracing what
`send_boot2_binary` does on the wire. -/
inductive SerialOp where
  | write (data : List Nat)
  | read (count : Nat)
deriving DecidableEq, Repr

/-- `STM8Bootloader.send_boot2_binary` on a located image `data`: fails
before any serial traffic if the file content is empty, otherwise
reverses the whole buffer (`bytes(reversed(data))`) and transmits it as
a single `serial.write` followed only by a flush — no acknowledgment is
read back.  The result is the trace of serial operations performed. -/
def send_boot2_binary (data : List Nat) : Except ProtocolError (List SerialOp) :=
  if data.isEmpty then .error .EmptyImage
  else .ok [.write data.reverse]

/-- C8: a located non-empty boot2 image is transmitted whole-buffer
reversed (byte `i` of the file is sent at position `len - 1 - i`) in a
single write operation with no read of any acknowledgment; a zero-length
image fails with `EmptyImage` and performs no serial operation. -/
theorem send_boot2_binary_spec (data : List Nat) :
    (data ≠ [] →
      send_boot2_binary data = .ok [.write data.reverse] ∧
      ∀ i, i < data.length →
        data.reverse.getD i 0 = data.getD (data.length - 1 - i) 0) ∧
    (data = [] → send_boot2_binary data = .error .EmptyImage) := by
  constructor
  · intro hne
    have hie : data.isEmpty = false := by
      rcases data with _ | ⟨c, cs⟩
      · exact absurd rfl hne
      · rfl
    refine ⟨by simp [send_boot2_binary, hie], ?_⟩
    intro i hi
    have h1 : i < data.reverse.length := by
      simpa using hi
    have h2 : data.length - 1 - i < data.length := by
      omega
    rw [List.getD_eq_getElem?_getD, List.getElem?_eq_getElem h1,
      List.getD_eq_getElem?_getD, List.getElem?_eq_getElem h2]
    simp
  · intro hnil
    subst hnil
    rfl

/-- C8 witness: a concrete 4-byte image is sent as one write of its
reversal, and the empty image fails with `EmptyImage`. -/
theorem send_boot2_binary_spec_witness :
    send_boot2_binary [1, 2, 3, 4] = .ok [.write [4, 3, 2, 1]] ∧
    send_boot2_binary [] = .error .EmptyImage :=
  ⟨((send_boot2_binary_spec [1, 2, 3, 4]).1 (by decide)).1.trans (by rfl),
   (send_boot2_binary_spec []).2 rfl⟩

/-- `STM8Bootloader.check_boot2`, abstracted over the outcome `send` of
the serial exchange `send_command(CMD_READ, HANDSHAKE_ADDR, b'\x08')`
(either the parsed response triple or a raised frame/timeout error,
which the Python code catches).  Returns the pair (returned value,
`in_boot2` flag after the call): the flag is set only on the
successful-match path, and every error or mismatch path resets it. -/
def check_boot2
    (send : Nat → Nat → List Nat → Except ProtocolError (Nat × Nat × List Nat)) :
    Bool × Bool :=
  match send CMD_READ HANDSHAKE_ADDR [0x08] with
  | .ok (cmd, addr, data) =>
    if cmd = CMD_READ ∧ addr = HANDSHAKE_ADDR ∧ HANDSHAKE_SIZE ≤ data.length then
      (true, true)
    else
      (false, false)
  | .error _ => (false, false)

/-- C9: `check_boot2` sends one read request for 8 bytes at the
handshake address `0x8000`; it returns `True` exactly when the parsed
response echoes `CMD_READ` and the handshake address with a payload of
at least 8 bytes; any frame/timeout error yields `False` instead of
propagating; and the `in_boot2` flag always equals the returned value,
so it is set only by a successful verification and never left set after
a failed check. -/
theorem check_boot2_spec
    (send : Nat → Nat → List Nat → Except ProtocolError (Nat × Nat × List Nat)) :
    ((check_boot2 send).1 = true ↔
      ∃ cmd addr data, send CMD_READ HANDSHAKE_ADDR [0x08] = .ok (cmd, addr, data) ∧
        cmd = CMD_READ ∧ addr = HANDSHAKE_ADDR ∧ HANDSHAKE_SIZE ≤ data.length) ∧
    (check_boot2 send).2 = (check_boot2 send).1 ∧
    (∀ e, send CMD_READ HANDSHAKE_ADDR [0x08] = .error e →
      check_boot2 send = (false, false)) := by
  rcases hsend : send CMD_READ HANDSHAKE_ADDR [0x08] with e | ⟨cmd, addr, data⟩
  · refine ⟨?_, ?_, ?_⟩
    · simp [check_boot2, hsend]
    · simp [check_boot2, hsend]
    · intro e2 _
      simp [check_boot2, hsend]
  · by_cases hcond : cmd = CMD_READ ∧ addr = HANDSHAKE_ADDR ∧ HANDSHAKE_SIZE ≤ data.length
    · refine ⟨?_, ?_, ?_⟩
      · simp only [check_boot2, hsend, if_pos hcond]
        simp only [true_iff]
        exact ⟨cmd, addr, data, rfl, hcond⟩
      · simp [check_boot2, hsend, hcond]
      · intro e2 he2
        exact absurd he2 (by simp)
    · refine ⟨?_, ?_, ?_⟩
      · simp only [check_boot2, hsend, if_neg hcond]
        simp
        intro hc ha
        by_contra hnl
        exact hcond ⟨hc, ha, Nat.not_lt.mp hnl⟩
      · simp [check_boot2, hsend, hcond]
      · intro e2 he2
        exact absurd he2 (by simp)

/-- A demo exchange answering every request with an echoing response
whose payload is as long as the first payload byte requests. -/
def demo_probe_ok (cmd addr : Nat) (data : List Nat) :
    Except ProtocolError (Nat × Nat × List Nat) :=
  .ok (cmd, addr, List.replicate (data.getD 0 0) 0)

/-- C9 witness: against a compliant prober `check_boot2` returns `True`
and sets the flag, and against a timing-out one it returns `False` with
the flag cleared. -/
theorem check_boot2_spec_witness :
    check_boot2 demo_probe_ok = (true, true) ∧
    check_boot2 (fun _ _ _ => .error .NoResponse) = (false, false) := by
  constructor
  · have hres : (check_boot2 demo_probe_ok).1 = true :=
      (check_boot2_spec demo_probe_ok).1.mpr
        ⟨CMD_READ, HANDSHAKE_ADDR, List.replicate 8 0, by simp [demo_probe_ok], rfl, rfl,
          by simp [HANDSHAKE_SIZE]⟩
    have hflag := (check_boot2_spec demo_probe_ok).2.1
    exact Prod.ext_iff.mpr ⟨hres, hflag.trans hres⟩
  · exact (check_boot2_spec (fun _ _ _ => .error .NoResponse)).2.2 .NoResponse rfl

/-- The parsing step of `STM8Bootloader.get_info` applied to the 8-byte
block read from `HANDSHAKE_ADDR`: requires at least `HANDSHAKE_SIZE`
bytes, then extracts `boot0_address = (data[2] << 8) | data[3]` and
`main_program_address = (data[6] << 8) | data[7]`. -/
def get_info_addresses (data : List Nat) : Except ProtocolError (Nat × Nat) :=
  if data.length < HANDSHAKE_SIZE then
    .error .InfoTooShort
  else
    .ok (((data.getD 2 0) <<< 8) ||| data.getD 3 0,
      ((data.getD 6 0) <<< 8) ||| data.getD 7 0)

/-- C10: on every successfully read 8-byte handshake block, `get_info`
interprets both 16-bit fields big-endian at fixed offsets
(`boot0_address = block[2]*256 + block[3]`,
`main_program_address = block[6]*256 + block[7]`), and bytes 0, 1, 4, 5
of the block do not influence the two returned addresses. -/
theorem get_info_addresses_spec (data : List Nat) (hlen : data.length = 8)
    (hb : ∀ b ∈ data, b < 256) :
    get_info_addresses data =
      .ok (data.getD 2 0 * 256 + data.getD 3 0, data.getD 6 0 * 256 + data.getD 7 0) ∧
    (∀ data2 : List Nat, data2.length = 8 →
      data2.getD 2 0 = data.getD 2 0 → data2.getD 3 0 = data.getD 3 0 →
      data2.getD 6 0 = data.getD 6 0 → data2.getD 7 0 = data.getD 7 0 →
      get_info_addresses data2 = get_info_addresses data) := by
  constructor
  · have h3 : data.getD 3 0 < 256 := getD_lt_256 hb (by omega)
    have h7 : data.getD 7 0 < 256 := getD_lt_256 hb (by omega)
    unfold get_info_addresses
    rw [if_neg (by simp only [hlen, HANDSHAKE_SIZE]; omega),
      shiftLeft_eight_or_eq _ _ h3, shiftLeft_eight_or_eq _ _ h7]
  · intro data2 hlen2 e2 e3 e6 e7
    unfold get_info_addresses
    rw [if_neg (by simp only [hlen, HANDSHAKE_SIZE]; omega),
      if_neg (by simp only [hlen2, HANDSHAKE_SIZE]; omega), e2, e3, e6, e7]

/-- C10 witness: a concrete block parses big-endian, and changing bytes
0, 1, 4, 5 leaves the result unchanged. -/
theorem get_info_addresses_spec_witness :
    get_info_addresses [1, 2, 3, 4, 5, 6, 7, 8] = .ok (3 * 256 + 4, 7 * 256 + 8) ∧
    get_info_addresses [9, 9, 3, 4, 9, 9, 7, 8] = get_info_addresses [1, 2, 3, 4, 5, 6, 7, 8] := by
  constructor
  · exact ((get_info_addresses_spec [1, 2, 3, 4, 5, 6, 7, 8] (by decide) (by decide)).1).trans
      (by rfl)
  · exact (get_info_addresses_spec [1, 2, 3, 4, 5, 6, 7, 8] (by decide) (by decide)).2
      [9, 9, 3, 4, 9, 9, 7, 8] (by decide) (by decide) (by decide) (by decide) (by decide)
